import Mathlib

/-!
Shallow embedding of the Artifactor streaming-session frontend logic:
the analysis progress tracker (stage upsert, derived percentage, ETA
estimation, pause side channel) and the chat session transcript
handlers.  Definitions mirror the TypeScript source; theorems settle
the specification's claims about them.
-/

namespace Artifactor

/-- Stage record kept by the analysis progress tracker.  The status is
kept as a raw string exactly as the source stores whatever string the
server sent (with a cast), comparing it against the literals
"pending", "running", "done", "error". -/
structure Stage where
  name : String
  label : String
  status : String
  message : String
  duration_ms : ℚ
deriving DecidableEq

/-- Authoritative progress snapshot carried by a stage event. -/
structure ProgressInfo where
  completed : ℚ
  total : ℚ
  percent : ℚ
deriving DecidableEq

/-- Terminal summary carried by the complete event. -/
structure CompleteSummary where
  project_id : String
  sections : ℚ
  stages_ok : ℚ
  stages_failed : ℚ
  duration_ms : ℚ
deriving DecidableEq

/-- Event vocabulary of the analysis stream. -/
inductive AnalysisEventType where
  | idle
  | stage
  | complete
  | paused
  | error
deriving DecidableEq

/-- Loose payload of an analysis stream event; optional fields model
the optional properties of the TypeScript interface. -/
structure AnalysisEventData where
  message : Option String := none
  name : Option String := none
  status : Option String := none
  duration_ms : Option ℚ := none
  completed : Option ℚ := none
  total : Option ℚ := none
  percent : Option ℚ := none
  project_id : Option String := none
  sections : Option ℚ := none
  stages_ok : Option ℚ := none
  stages_failed : Option ℚ := none
  label : Option String := none
  error : Option String := none
deriving DecidableEq

/-- Stage record built from a stage event payload whose name field is
present (source lines building the stage object: label falls back to
the name, a falsy status string becomes "running", message falls back
to the empty string and duration to 0). -/
def mkStage (n : String) (d : AnalysisEventData) : Stage :=
  { name := n
    label := d.label.getD n
    status :=
      match d.status with
      | some st => if st = "" then "running" else st
      | none => "running"
    message := d.message.getD ""
    duration_ms := d.duration_ms.getD 0 }

/-- Upsert of a stage into the stage list: replace in place at the
index found by findIndex when the name already occurs, append
otherwise (the setStages updater in the source). -/
def upsertStage (prev : List Stage) (st : Stage) : List Stage :=
  match prev.findIdx? (fun s => s.name = st.name) with
  | some idx => prev.set idx st
  | none => prev ++ [st]

/-- Component state of the analysis progress tracker.  pausedCalls
counts invocations of the external onPaused callback; timerRunning
models whether the elapsed-time interval is still scheduled. -/
structure PState where
  stages : List Stage
  summary : Option CompleteSummary
  progress : Option ProgressInfo
  isPausing : Bool
  timerRunning : Bool
  pausedCalls : Nat
  streamError : Option String
deriving DecidableEq

/-- State installed by startAnalysis: cleared stages, summary and
snapshot, ticker started, no pause in flight. -/
def initialPState : PState :=
  { stages := []
    summary := none
    progress := none
    isPausing := false
    timerRunning := true
    pausedCalls := 0
    streamError := none }

/-- The onUpdate hook of the analysis stream: a paused event stops the
ticker and fires the pause callback unconditionally; an event whose
payload carries a truthy name upserts a stage and, when completed,
total and percent are all defined, installs the authoritative
snapshot. -/
def progressOnUpdate (event : AnalysisEventType) (d : AnalysisEventData) (s : PState) : PState :=
  if event = .paused then
    { s with timerRunning := false, pausedCalls := s.pausedCalls + 1 }
  else
    match d.name with
    | some n =>
      if n = "" then s
      else
        let s' := { s with stages := upsertStage s.stages (mkStage n d) }
        if d.completed ≠ none ∧ d.total ≠ none ∧ d.percent ≠ none then
          { s' with
              progress := some
                { completed := d.completed.getD 0
                  total := d.total.getD 0
                  percent := d.percent.getD 0 } }
        else s'
    | none => s

/-- The handlePause click handler, with the awaited outcome of the
side-channel request made explicit: none is a network failure of the
fetch, some b is a response whose success field is b.  A click while a
pause is already in flight returns immediately; acceptance stops the
ticker and fires the pause callback (leaving the pausing flag set);
decline and network failure end by clearing the pausing flag. -/
def handlePause (response : Option Bool) (s : PState) : PState :=
  if s.isPausing then s
  else
    match response with
    | some true =>
      { s with isPausing := true, timerRunning := false, pausedCalls := s.pausedCalls + 1 }
    | some false => { s with isPausing := false }
    | none => { s with isPausing := false }

/-- Number of stages currently reported done. -/
def doneCount (stages : List Stage) : Nat :=
  (stages.filter (fun s => s.status = "done")).length

/-- The derived overall percentage: the authoritative snapshot percent
when one is present, otherwise the rounded ratio of done stages when
any stage exists, otherwise 0. -/
def overallPercent (s : PState) : ℚ :=
  match s.progress with
  | some p => p.percent
  | none =>
    if 0 < s.stages.length then
      ((round ((doneCount s.stages : ℚ) / (s.stages.length : ℚ) * 100) : ℤ) : ℚ)
    else 0

/-- Stages reported done, in order (completedStages in the source). -/
def completedStages (stages : List Stage) : List Stage :=
  stages.filter (fun s => s.status = "done")

/-- Mean duration over done stages once at least two are done, 0
otherwise (avgMs in the source). -/
def avgMs (stages : List Stage) : ℚ :=
  if 2 ≤ (completedStages stages).length then
    ((completedStages stages).map (fun s => s.duration_ms)).sum /
      ((completedStages stages).length : ℚ)
  else 0

/-- Count of stages still running or pending. -/
def pendingCount (stages : List Stage) : Nat :=
  (stages.filter (fun s => s.status = "running" ∨ s.status = "pending")).length

/-- The ETA value: round of average times pending count when both are
positive, 0 otherwise. -/
def estimatedRemainingMs (stages : List Stage) : ℤ :=
  if 0 < avgMs stages ∧ 0 < pendingCount stages then
    round (avgMs stages * (pendingCount stages : ℚ))
  else 0

/-- Render condition of the remaining-time label: a positive estimate
while neither a summary nor a stream error is present. -/
def etaShown (s : PState) : Prop :=
  0 < estimatedRemainingMs s.stages ∧ s.summary = none ∧ s.streamError = none

/-- First record with the given name, the unique one once names are
without duplicates. -/
def findByName (l : List Stage) (n : String) : Option Stage :=
  l.find? (fun s => s.name = n)

/-- Structural recursion equivalent of upsertStage, used to reason by
induction on the stage list. -/
def upsertRec (l : List Stage) (st : Stage) : List Stage :=
  match l with
  | [] => [st]
  | x :: xs => if x.name = st.name then st :: xs else x :: upsertRec xs st

theorem upsertStage_eq_upsertRec (l : List Stage) (st : Stage) :
    upsertStage l st = upsertRec l st := by
  induction l with
  | nil => rfl
  | cons x xs ih =>
    by_cases hx : x.name = st.name
    · simp [upsertStage, upsertRec, List.findIdx?_cons, hx]
    · rw [upsertRec, if_neg hx, ← ih]
      cases h : xs.findIdx? (fun s => decide (s.name = st.name)) with
      | none => simp [upsertStage, List.findIdx?_cons, List.findIdx?_succ, hx, h]
      | some i => simp [upsertStage, List.findIdx?_cons, List.findIdx?_succ, hx, h]

theorem upsertRec_map_name_of_mem (l : List Stage) (st : Stage)
    (h : st.name ∈ l.map Stage.name) :
    (upsertRec l st).map Stage.name = l.map Stage.name := by
  induction l with
  | nil => simp at h
  | cons x xs ih =>
    by_cases hx : x.name = st.name
    · simp [upsertRec, hx]
    · have hxs : st.name ∈ xs.map Stage.name := by
        rcases List.mem_map.mp h with ⟨y, hy, hyn⟩
        rcases List.mem_cons.mp hy with rfl | hy'
        · exact absurd hyn.symm (by simpa using fun e => hx e.symm)
        · exact List.mem_map.mpr ⟨y, hy', hyn⟩
      simp [upsertRec, hx, ih hxs]

theorem upsertRec_of_not_mem (l : List Stage) (st : Stage)
    (h : st.name ∉ l.map Stage.name) :
    upsertRec l st = l ++ [st] := by
  induction l with
  | nil => rfl
  | cons x xs ih =>
    have hx : x.name ≠ st.name := by
      intro e
      exact h (List.mem_map.mpr ⟨x, List.mem_cons_self x xs, e⟩)
    have hxs : st.name ∉ xs.map Stage.name := by
      intro hm
      rcases List.mem_map.mp hm with ⟨y, hy, hyn⟩
      exact h (List.mem_map.mpr ⟨y, List.mem_cons_of_mem x hy, hyn⟩)
    simp [upsertRec, hx, ih hxs]

theorem upsertRec_length_of_mem (l : List Stage) (st : Stage)
    (h : st.name ∈ l.map Stage.name) :
    (upsertRec l st).length = l.length := by
  have h' := congrArg List.length (upsertRec_map_name_of_mem l st h)
  simpa using h'

theorem findByName_upsertRec (l : List Stage) (st : Stage) (n : String) :
    findByName (upsertRec l st) n = if n = st.name then some st else findByName l n := by
  induction l with
  | nil =>
    by_cases h : n = st.name
    · simp [upsertRec, findByName, List.find?, h]
    · simp [upsertRec, findByName, List.find?, h,
        show ¬st.name = n from fun e => h e.symm]
  | cons x xs ih =>
    by_cases hx : x.name = st.name
    · by_cases hn : n = st.name
      · simp [upsertRec, hx, findByName, List.find?, hn]
      · have hxn : ¬x.name = n := fun e => hn (by rw [← e, hx])
        simp [upsertRec, hx, findByName, List.find?, hn, hxn,
          show ¬st.name = n from fun e => hn e.symm]
    · by_cases hn : n = st.name
      · have hxn : ¬x.name = n := fun e => hx (by rw [e, hn])
        simpa [upsertRec, hx, findByName, List.find?, hxn, hn] using ih
      · by_cases hxn : x.name = n
        · simp [upsertRec, hx, findByName, List.find?, hxn, hn]
        · simpa [upsertRec, hx, findByName, List.find?, hxn, hn] using ih

theorem nodup_names_upsertRec (l : List Stage) (st : Stage)
    (h : (l.map Stage.name).Nodup) :
    ((upsertRec l st).map Stage.name).Nodup := by
  by_cases hm : st.name ∈ l.map Stage.name
  · rwa [upsertRec_map_name_of_mem l st hm]
  · rw [upsertRec_of_not_mem l st hm]
    rw [List.map_append, List.nodup_append]
    refine ⟨h, by simp, ?_⟩
    intro a ha hb
    simp only [List.map_cons, List.map_nil, List.mem_singleton] at hb
    exact hm (hb ▸ ha)

theorem doneCount_cons (x : Stage) (xs : List Stage) :
    doneCount (x :: xs) = doneCount xs + (if x.status = "done" then 1 else 0) := by
  by_cases h : x.status = "done" <;> simp [doneCount, List.filter_cons, h]

theorem doneCount_le_upsertRec (l : List Stage) (st : Stage)
    (hreg : ∀ x ∈ l, x.name = st.name → x.status = "done" → st.status = "done") :
    doneCount l ≤ doneCount (upsertRec l st) := by
  induction l with
  | nil => exact Nat.zero_le _
  | cons x xs ih =>
    by_cases hx : x.name = st.name
    · rw [upsertRec, if_pos hx, doneCount_cons, doneCount_cons]
      by_cases hd : x.status = "done"
      · have hst := hreg x (List.mem_cons_self x xs) hx hd
        simp [hd, hst]
      · have : (if x.status = "done" then 1 else 0) = 0 := by simp [hd]
        rw [this]
        have : (0 : Nat) ≤ if st.status = "done" then 1 else 0 := by positivity
        omega
    · rw [upsertRec, if_neg hx, doneCount_cons, doneCount_cons]
      have ih' := ih (fun y hy => hreg y (List.mem_cons_of_mem x hy))
      omega

theorem roundRatMono {x y : ℚ} (h : x ≤ y) : round x ≤ round y := by
  rw [round_eq, round_eq]
  exact Int.floor_le_floor (by linarith)

/-- One externally observable step of a run of the progress tracker:
a stream update, the resolution of a pause click, the complete event
or the error event (the latter two stop the ticker, as their handlers
clear the interval). -/
inductive PAction where
  | update (event : AnalysisEventType) (data : AnalysisEventData)
  | pauseClick (response : Option Bool)
  | completeEv (result : CompleteSummary)
  | errorEv (msg : String)
deriving DecidableEq

/-- Step function of a run of the progress tracker. -/
def stepP (s : PState) (a : PAction) : PState :=
  match a with
  | .update e d => progressOnUpdate e d s
  | .pauseClick r => handlePause r s
  | .completeEv res => { s with summary := some res, timerRunning := false }
  | .errorEv m => { s with streamError := some m, timerRunning := false }

/-- State reached from startAnalysis by a sequence of actions. -/
def runP (as : List PAction) : PState :=
  as.foldl stepP initialPState

/-- State reached from startAnalysis by a sequence of stage events
alone. -/
def applyStageEvents (ds : List AnalysisEventData) : PState :=
  ds.foldl (fun s d => progressOnUpdate .stage d s) initialPState

/-- Last event of the sequence whose name field is the given name. -/
def lastEventFor (n : String) (ds : List AnalysisEventData) : Option AnalysisEventData :=
  (ds.filter (fun d => d.name = some n)).getLast?

/-- Names of the stage events in order of first appearance, skipping
events without a truthy name. -/
def firstNames (ds : List AnalysisEventData) : List String :=
  ds.foldl
    (fun acc d =>
      match d.name with
      | some n => if n = "" ∨ n ∈ acc then acc else acc ++ [n]
      | none => acc)
    []

/-- Citation value object of the chat API. -/
structure Citation where
  file_path : String
  function_name : Option String
  line_start : ℚ
  line_end : ℚ
  confidence : ℚ
deriving DecidableEq

/-- Confidence score value object of the chat API. -/
structure ConfidenceScore where
  value : ℚ
  source : String
  explanation : String
deriving DecidableEq

/-- Role of a transcript turn. -/
inductive ChatRole where
  | user
  | assistant
deriving DecidableEq

/-- Transcript turn of the chat session.  Optional fields model the
optional properties of the ChatMessage interface; the confidence field
is doubly optional because it is an optional property that may itself
be null. -/
structure ChatMessage where
  role : ChatRole
  content : String
  citations : Option (List Citation) := none
  confidence : Option (Option ConfidenceScore) := none
  status : Option String := none
  isError : Option Bool := none
deriving DecidableEq

/-- Event vocabulary of the chat stream. -/
inductive ChatEventType where
  | idle
  | thinking
  | tool_call
  | complete
  | error
deriving DecidableEq

/-- Loose payload of a chat stream event. -/
structure ChatEventData where
  status : Option String := none
  tool : Option String := none
  message : Option String := none
  citations : Option (List Citation) := none
  confidence : Option (Option ConfidenceScore) := none
  tools_used : Option (List String) := none
  conversation_id : Option String := none
  model : Option String := none
  error : Option String := none
  request_id : Option String := none
deriving DecidableEq

/-- Result extracted from the complete event of the chat stream. -/
structure ChatResult where
  message : String
  citations : List Citation
  confidence : Option ConfidenceScore
  tools_used : List String
  conversation_id : String
deriving DecidableEq

/-- State of the chat session: the transcript, the conversation id
carried forward between turns, the tracked index of the in-flight
assistant placeholder (negative before any send), the streaming flag
of the underlying stream session and a count of started streams. -/
structure ChatState where
  messages : List ChatMessage
  conversationId : Option String
  assistantIdx : Int
  isStreaming : Bool
  streamStarts : Nat
deriving DecidableEq

/-- Fresh chat session state. -/
def initialChatState : ChatState :=
  { messages := []
    conversationId := none
    assistantIdx := -1
    isStreaming := false
    streamStarts := 0 }

/-- sendMessage: returns unchanged while a stream is active, otherwise
appends the user turn and the assistant placeholder in one update,
points the tracked index at the placeholder, and starts a new stream
with the carried conversation id. -/
def sendMessage (content : String) (s : ChatState) : ChatState :=
  if s.isStreaming then s
  else
    { s with
        messages := s.messages ++
          [ { role := .user, content := content },
            { role := .assistant, content := "", status := some "Thinking..." } ]
        assistantIdx := (s.messages.length : Int) + 1
        isStreaming := true
        streamStarts := s.streamStarts + 1 }

/-- Replace the message at an index when it exists, as the JavaScript
array copy-and-assign does inside the functional state update. -/
def setMessage (l : List ChatMessage) (i : Nat) (f : ChatMessage → ChatMessage) : List ChatMessage :=
  match l[i]? with
  | some m => l.set i (f m)
  | none => l

/-- The onUpdate hook of the chat stream: guarded by a negative
tracked index; a thinking event with a truthy status string replaces
the placeholder status, a tool-call event with a truthy message does
the same with the tool message. -/
def chatOnUpdate (event : ChatEventType) (d : ChatEventData) (s : ChatState) : ChatState :=
  if s.assistantIdx < 0 then s
  else
    if event = .thinking then
      match d.status with
      | some st =>
        if st = "" then s
        else
          { s with
              messages := setMessage s.messages s.assistantIdx.toNat
                (fun m => { m with status := some st }) }
      | none => s
    else if event = .tool_call then
      match d.message with
      | some msg =>
        if msg = "" then s
        else
          { s with
              messages := setMessage s.messages s.assistantIdx.toNat
                (fun m => { m with status := some msg }) }
      | none => s
    else s

/-- The onComplete hook of the chat stream: guarded by a negative
tracked index; replaces the placeholder wholesale with the final
assistant turn and, when the result carries a truthy conversation id,
stores it for subsequent turns. -/
def chatOnComplete (result : ChatResult) (s : ChatState) : ChatState :=
  if s.assistantIdx < 0 then s
  else
    let s' :=
      { s with
          messages := s.messages.set s.assistantIdx.toNat
            { role := .assistant
              content := result.message
              citations := some result.citations
              confidence := some result.confidence
              status := none } }
    if result.conversation_id = "" then s'
    else { s' with conversationId := some result.conversation_id }

/-- The onError hook of the chat stream: guarded by a negative tracked
index; replaces the placeholder with the error turn, without touching
any other turn or the conversation id. -/
def chatOnError (error : String) (s : ChatState) : ChatState :=
  if s.assistantIdx < 0 then s
  else
    { s with
        messages := s.messages.set s.assistantIdx.toNat
          { role := .assistant
            content := "Error: " ++ error
            status := none
            isError := some true } }

/-- C1 counterexample: starting from a fresh run, a successful pause
request followed by a paused stream event invokes the pause callback
twice, not exactly once as the claim states — the second pause path is
not a no-op, because neither pause path carries a single-fire guard. -/
theorem c1_pause_twice_cex :
    (progressOnUpdate .paused {} (handlePause (some true) initialPState)).pausedCalls = 2 ∧
    (progressOnUpdate .paused {} (handlePause (some true) initialPState)).pausedCalls ≠ 1 := by
  constructor <;> decide

/-- C1 amended: when the pause side-channel request succeeds and a
paused stream event also arrives, in either order, the pause callback
is invoked once by each path — twice in total, the second arrival is
not a no-op — and the elapsed ticker remains stopped. -/
theorem c1_pause_paths_amended (s : PState) (d : AnalysisEventData) (h : s.isPausing = false) :
    (progressOnUpdate .paused d (handlePause (some true) s)).pausedCalls = s.pausedCalls + 2 ∧
    (progressOnUpdate .paused d (handlePause (some true) s)).timerRunning = false ∧
    (handlePause (some true) (progressOnUpdate .paused d s)).pausedCalls = s.pausedCalls + 2 ∧
    (handlePause (some true) (progressOnUpdate .paused d s)).timerRunning = false := by
  refine ⟨?_, ?_, ?_, ?_⟩ <;> simp [progressOnUpdate, handlePause, h]

/-- C1 witness: both pause paths on a fresh run, paused stream event
first, leave the callback invoked twice and the ticker stopped. -/
theorem c1_pause_paths_witness :
    (handlePause (some true) (progressOnUpdate .paused {} initialPState)).pausedCalls =
      initialPState.pausedCalls + 2 ∧
    (handlePause (some true) (progressOnUpdate .paused {} initialPState)).timerRunning = false :=
  ⟨(c1_pause_paths_amended initialPState {} rfl).2.2.1,
   (c1_pause_paths_amended initialPState {} rfl).2.2.2⟩

/-- C4: a sendMessage call made while a stream is already active
returns the state unchanged — no turns are appended, the conversation
id is unchanged and no new stream is started. -/
theorem c4_sendMessage_noop (s : ChatState) (c : String) (h : s.isStreaming = true) :
    sendMessage c s = s ∧
    (sendMessage c s).messages = s.messages ∧
    (sendMessage c s).conversationId = s.conversationId ∧
    (sendMessage c s).streamStarts = s.streamStarts := by
  refine ⟨?_, ?_, ?_, ?_⟩ <;> simp [sendMessage, h]

/-- C4 witness: the second of two quick sendMessage calls on a fresh
session is a no-op, and the transcript holds exactly the first call's
two appended turns. -/
theorem c4_sendMessage_witness :
    sendMessage "again" (sendMessage "hello" initialChatState) =
      sendMessage "hello" initialChatState ∧
    (sendMessage "hello" initialChatState).messages.length =
      initialChatState.messages.length + 2 :=
  ⟨(c4_sendMessage_noop (sendMessage "hello" initialChatState) "again" rfl).1, by decide⟩

/-- C8: any update, complete or error event delivered while the
tracked assistant index is negative leaves the chat state — in
particular the transcript and the conversation id — unchanged. -/
theorem c8_idx_guard (ty : ChatEventType) (d : ChatEventData) (r : ChatResult) (e : String)
    (s : ChatState) (h : s.assistantIdx < 0) :
    chatOnUpdate ty d s = s ∧ chatOnComplete r s = s ∧ chatOnError e s = s := by
  refine ⟨?_, ?_, ?_⟩ <;> simp [chatOnUpdate, chatOnComplete, chatOnError, h]

/-- C8 witness: on a fresh session, whose tracked index is negative,
a thinking update, a complete event and an error event are all
no-ops. -/
theorem c8_idx_guard_witness :
    chatOnUpdate .thinking { status := some "working" } initialChatState = initialChatState ∧
    chatOnComplete
      { message := "m", citations := [], confidence := none, tools_used := [],
        conversation_id := "c" } initialChatState = initialChatState ∧
    chatOnError "boom" initialChatState = initialChatState :=
  c8_idx_guard .thinking { status := some "working" }
    { message := "m", citations := [], confidence := none, tools_used := [],
      conversation_id := "c" } "boom" initialChatState (by decide)

/-- C10: a pause request answered with a response whose success field
is false leaves the state exactly as a network failure of the request
does: the pausing flag ends cleared, the ticker keeps its state and
the pause callback is not invoked. -/
theorem c10_pause_declined (s : PState) (h : s.isPausing = false) :
    handlePause (some false) s = s ∧
    handlePause none s = s ∧
    (handlePause (some false) s).isPausing = false ∧
    (handlePause (some false) s).timerRunning = s.timerRunning ∧
    (handlePause (some false) s).pausedCalls = s.pausedCalls := by
  obtain ⟨st, su, pr, ip, tr, pc, se⟩ := s
  simp only at h
  subst h
  refine ⟨rfl, rfl, rfl, rfl, rfl⟩

/-- C10 witness: a declined pause on a fresh run, whose ticker is
running, is a complete no-op. -/
theorem c10_pause_declined_witness :
    handlePause (some false) initialPState = initialPState ∧
    (handlePause (some false) initialPState).timerRunning = initialPState.timerRunning :=
  ⟨(c10_pause_declined initialPState rfl).1, (c10_pause_declined initialPState rfl).2.2.2.1⟩

/-- C6: in every state reached by a run, the overall percent is the
authoritative snapshot percent when a snapshot is present, otherwise
the rounded done ratio when at least one stage exists, otherwise 0. -/
theorem c6_overall_percent (acts : List PAction) :
    (∀ p, (runP acts).progress = some p → overallPercent (runP acts) = p.percent) ∧
    ((runP acts).progress = none → 0 < (runP acts).stages.length →
      overallPercent (runP acts) =
        ((round ((doneCount (runP acts).stages : ℚ) /
          ((runP acts).stages.length : ℚ) * 100) : ℤ) : ℚ)) ∧
    ((runP acts).progress = none → (runP acts).stages.length = 0 →
      overallPercent (runP acts) = 0) := by
  refine ⟨?_, ?_, ?_⟩
  · intro p hp
    simp [overallPercent, hp]
  · intro hp hl
    simp [overallPercent, hp, hl]
  · intro hp hl
    simp [overallPercent, hp, hl]

/-- C6 witness: a stage event carrying an authoritative snapshot makes
the reported percent that snapshot's percent. -/
theorem c6_overall_witness :
    overallPercent (runP [PAction.update .stage
      { name := some "a", status := some "running", completed := some 2, total := some 10,
        percent := some 20 }]) = (20 : ℚ) :=
  (c6_overall_percent [PAction.update .stage
      { name := some "a", status := some "running", completed := some 2, total := some 10,
        percent := some 20 }]).1
    { completed := 2, total := 10, percent := 20 } (by decide)

/-- C5: for nonnegative stage durations the ETA value always equals
the round of the average done duration times the pending count (the
average being 0 with fewer than two done stages); it is shown only
when the average and the pending count are positive, and never when
fewer than two stages are done. -/
theorem c5_eta_estimate (s : PState) (hdur : ∀ st ∈ s.stages, 0 ≤ st.duration_ms) :
    estimatedRemainingMs s.stages =
      round (avgMs s.stages * (pendingCount s.stages : ℚ)) ∧
    (etaShown s → 0 < avgMs s.stages ∧ 0 < pendingCount s.stages) ∧
    ((completedStages s.stages).length < 2 → ¬ etaShown s) := by
  have havg : 0 ≤ avgMs s.stages := by
    unfold avgMs
    split
    · apply div_nonneg
      · apply List.sum_nonneg
        intro x hx
        rcases List.mem_map.mp hx with ⟨st, hst, rfl⟩
        exact hdur st (List.mem_of_mem_filter hst)
      · positivity
    · exact le_refl 0
  refine ⟨?_, ?_, ?_⟩
  · by_cases hc : 0 < avgMs s.stages ∧ 0 < pendingCount s.stages
    · simp [estimatedRemainingMs, hc]
    · simp only [estimatedRemainingMs]
      rw [if_neg hc]
      by_cases ha : 0 < avgMs s.stages
      · have hp : pendingCount s.stages = 0 := by
          rcases Nat.eq_zero_or_pos (pendingCount s.stages) with h0 | h0
          · exact h0
          · exact absurd ⟨ha, h0⟩ hc
        rw [hp]
        simp
      · have h0 : avgMs s.stages = 0 := le_antisymm (not_lt.mp ha) havg
        rw [h0]
        simp
  · intro h
    simp only [etaShown] at h
    rcases h with ⟨hpos, -, -⟩
    by_cases hc : 0 < avgMs s.stages ∧ 0 < pendingCount s.stages
    · exact hc
    · simp only [estimatedRemainingMs] at hpos
      rw [if_neg hc] at hpos
      exact absurd hpos (by norm_num)
  · intro hlt h
    simp only [etaShown] at h
    rcases h with ⟨hpos, -, -⟩
    have h0 : avgMs s.stages = 0 := by
      unfold avgMs
      rw [if_neg (by omega)]
    simp only [estimatedRemainingMs] at hpos
    rw [if_neg (by rw [h0]; exact fun hcc => lt_irrefl 0 hcc.1)] at hpos
    exact absurd hpos (by norm_num)

/-- C5 witness: two done stages of durations 1000 and 2000 and one
running stage give an ETA equal to the rounded product of the average
and the pending count. -/
theorem c5_eta_witness :
    estimatedRemainingMs
      [ { name := "a", label := "a", status := "done", message := "", duration_ms := 1000 },
        { name := "b", label := "b", status := "done", message := "", duration_ms := 2000 },
        { name := "c", label := "c", status := "running", message := "", duration_ms := 0 } ] =
    round (avgMs
      [ { name := "a", label := "a", status := "done", message := "", duration_ms := 1000 },
        { name := "b", label := "b", status := "done", message := "", duration_ms := 2000 },
        { name := "c", label := "c", status := "running", message := "", duration_ms := 0 } ] *
      ((pendingCount
        [ { name := "a", label := "a", status := "done", message := "", duration_ms := 1000 },
          { name := "b", label := "b", status := "done", message := "", duration_ms := 2000 },
          { name := "c", label := "c", status := "running", message := "", duration_ms := 0 } ] : ℕ) : ℚ)) :=
  (c5_eta_estimate
    { stages :=
        [ { name := "a", label := "a", status := "done", message := "", duration_ms := 1000 },
          { name := "b", label := "b", status := "done", message := "", duration_ms := 2000 },
          { name := "c", label := "c", status := "running", message := "", duration_ms := 0 } ]
      summary := none
      progress := none
      isPausing := false
      timerRunning := true
      pausedCalls := 0
      streamError := none } (by decide)).1

/-- C7: on an error event with the tracked index in range, the
placeholder becomes the assistant error turn with its status cleared,
while the transcript length, every other turn and the conversation id
are unchanged. -/
theorem c7_error_placeholder (s : ChatState) (e : String)
    (h0 : 0 ≤ s.assistantIdx) (h1 : s.assistantIdx.toNat < s.messages.length) :
    (chatOnError e s).messages.length = s.messages.length ∧
    (chatOnError e s).messages[s.assistantIdx.toNat]? =
      some { role := .assistant, content := "Error: " ++ e, status := none,
             isError := some true } ∧
    (∀ j : Nat, j ≠ s.assistantIdx.toNat → (chatOnError e s).messages[j]? = s.messages[j]?) ∧
    (chatOnError e s).conversationId = s.conversationId := by
  have hneg : ¬s.assistantIdx < 0 := not_lt.mpr h0
  refine ⟨?_, ?_, ?_, ?_⟩
  · simp [chatOnError, hneg]
  · simp only [chatOnError, if_neg hneg]
    exact List.getElem?_set_self h1
  · intro j hj
    simp only [chatOnError, if_neg hneg]
    exact List.getElem?_set_ne (Ne.symm hj)
  · simp [chatOnError, hneg]

theorem applyStageEvents_append (ds : List AnalysisEventData) (d : AnalysisEventData) :
    applyStageEvents (ds ++ [d]) = progressOnUpdate .stage d (applyStageEvents ds) := by
  simp [applyStageEvents, List.foldl_append]

theorem stages_onUpdate_stage (d : AnalysisEventData) (s : PState) :
    (progressOnUpdate .stage d s).stages =
      match d.name with
      | some n => if n = "" then s.stages else upsertRec s.stages (mkStage n d)
      | none => s.stages := by
  simp only [progressOnUpdate]
  rw [if_neg (by decide)]
  cases hn : d.name with
  | none => rfl
  | some n =>
    by_cases h0 : n = ""
    · simp [h0]
    · by_cases hsnap : d.completed ≠ none ∧ d.total ≠ none ∧ d.percent ≠ none
      · simp [h0, hsnap, upsertStage_eq_upsertRec]
      · simp [h0, hsnap, upsertStage_eq_upsertRec]

theorem progress_onUpdate_stage_no_snapshot (d : AnalysisEventData) (s : PState)
    (hsnap : d.percent = none) :
    (progressOnUpdate .stage d s).progress = s.progress := by
  simp only [progressOnUpdate]
  rw [if_neg (by decide)]
  cases hn : d.name with
  | none => rfl
  | some n =>
    by_cases h0 : n = ""
    · simp [h0]
    · have hcond : ¬(d.completed ≠ none ∧ d.total ≠ none ∧ d.percent ≠ none) :=
        fun h => h.2.2 hsnap
      simp [h0, hcond]

theorem lastEventFor_append (n : String) (ds : List AnalysisEventData)
    (d : AnalysisEventData) :
    lastEventFor n (ds ++ [d]) =
      if d.name = some n then some d else lastEventFor n ds := by
  simp only [lastEventFor, List.filter_append]
  by_cases h : d.name = some n
  · simp [h, List.getLast?_concat]
  · simp [h]

theorem firstNames_append (ds : List AnalysisEventData) (d : AnalysisEventData) :
    firstNames (ds ++ [d]) =
      match d.name with
      | some n =>
        if n = "" ∨ n ∈ firstNames ds then firstNames ds else firstNames ds ++ [n]
      | none => firstNames ds := by
  simp [firstNames, List.foldl_append]

/-- C3: after any sequence of stage events the stage list holds at
most one record per name, the names present are exactly the truthy
names of the events, and the record for each name is the one built
from the last event carrying that name. -/
theorem c3_upsert_last_event (ds : List AnalysisEventData) :
    ((applyStageEvents ds).stages.map Stage.name).Nodup ∧
    ∀ n : String, findByName (applyStageEvents ds).stages n =
      if n = "" then none else (lastEventFor n ds).map (mkStage n) := by
  induction ds using List.reverseRecOn with
  | nil =>
    constructor
    · simp [applyStageEvents, initialPState]
    · intro n
      by_cases h : n = "" <;>
        simp [applyStageEvents, initialPState, findByName, lastEventFor, h]
  | append_singleton ds d ih =>
    obtain ⟨ihn, ihf⟩ := ih
    rw [applyStageEvents_append]
    cases hn : d.name with
    | none =>
      have hs : (progressOnUpdate .stage d (applyStageEvents ds)).stages =
          (applyStageEvents ds).stages := by
        rw [stages_onUpdate_stage]
        simp only [hn]
      rw [hs]
      refine ⟨ihn, fun n => ?_⟩
      have hne : ¬d.name = some n := by
        rw [hn]
        exact fun h => Option.noConfusion h
      have hlast : lastEventFor n (ds ++ [d]) = lastEventFor n ds := by
        rw [lastEventFor_append, if_neg hne]
      rw [hlast]
      exact ihf n
    | some m =>
      by_cases h0 : m = ""
      · have hs : (progressOnUpdate .stage d (applyStageEvents ds)).stages =
            (applyStageEvents ds).stages := by
          rw [stages_onUpdate_stage]
          simp only [hn]
          rw [if_pos h0]
        rw [hs]
        refine ⟨ihn, fun n => ?_⟩
        by_cases hq : n = ""
        · rw [ihf n, if_pos hq, if_pos hq]
        · have hne : ¬d.name = some n := by
            rw [hn, h0]
            exact fun h => hq (Option.some.inj h).symm
          have hlast : lastEventFor n (ds ++ [d]) = lastEventFor n ds := by
            rw [lastEventFor_append, if_neg hne]
          rw [hlast]
          exact ihf n
      · have hs : (progressOnUpdate .stage d (applyStageEvents ds)).stages =
            upsertRec (applyStageEvents ds).stages (mkStage m d) := by
          rw [stages_onUpdate_stage]
          simp only [hn]
          rw [if_neg h0]
        rw [hs]
        refine ⟨nodup_names_upsertRec _ _ ihn, fun n => ?_⟩
        rw [findByName_upsertRec]
        have hmk : (mkStage m d).name = m := rfl
        rw [hmk]
        by_cases hnm : n = m
        · subst hnm
          have hlast : lastEventFor n (ds ++ [d]) = some d := by
            rw [lastEventFor_append, if_pos (by rw [hn])]
          rw [if_pos rfl, if_neg h0, hlast]
          rfl
        · have hne : ¬d.name = some n := by
            rw [hn]
            exact fun h => hnm (Option.some.inj h).symm
          have hlast : lastEventFor n (ds ++ [d]) = lastEventFor n ds := by
            rw [lastEventFor_append, if_neg hne]
          rw [if_neg hnm, hlast]
          exact ihf n

/-- C9: the stage list preserves first-appearance order — after any
sequence of stage events, the stage names in order are exactly the
event names in order of first report. -/
theorem c9_first_appearance_order (ds : List AnalysisEventData) :
    (applyStageEvents ds).stages.map Stage.name = firstNames ds := by
  induction ds using List.reverseRecOn with
  | nil => rfl
  | append_singleton ds d ih =>
    rw [applyStageEvents_append, stages_onUpdate_stage, firstNames_append]
    cases hn : d.name with
    | none =>
      simp only [hn]
      exact ih
    | some n =>
      simp only [hn]
      by_cases h0 : n = ""
      · rw [if_pos h0, if_pos (Or.inl h0)]
        exact ih
      · by_cases hm : n ∈ firstNames ds
        · have hm' : (mkStage n d).name ∈ (applyStageEvents ds).stages.map Stage.name := by
            rw [ih]
            exact hm
          rw [if_neg h0, if_pos (Or.inr hm), upsertRec_map_name_of_mem _ _ hm', ih]
        · have hm' : (mkStage n d).name ∉ (applyStageEvents ds).stages.map Stage.name := by
            rw [ih]
            exact hm
          rw [if_neg h0, if_neg (fun h => h.elim h0 hm), upsertRec_of_not_mem _ _ hm']
          rw [List.map_append, ih]
          rfl

/-- C2 counterexample: with no snapshot supplied and no stage
regressing from done, a stage event appending a new running stage
lowers the derived percentage from 100 to 50, so the percentage is not
monotonically non-decreasing between consecutive stage events. -/
theorem c2_percent_drop_cex :
    (applyStageEvents [{ name := some "a", status := some "done" }]).progress = none ∧
    (applyStageEvents [{ name := some "a", status := some "done" },
      { name := some "b", status := some "running" }]).progress = none ∧
    overallPercent (applyStageEvents [{ name := some "a", status := some "done" }]) = 100 ∧
    overallPercent (applyStageEvents [{ name := some "a", status := some "done" },
      { name := some "b", status := some "running" }]) = 50 ∧
    ¬(overallPercent (applyStageEvents [{ name := some "a", status := some "done" }]) ≤
      overallPercent (applyStageEvents [{ name := some "a", status := some "done" },
        { name := some "b", status := some "running" }])) := by
  have h1 : (applyStageEvents [{ name := some "a", status := some "done" }]).progress
      = none := by decide
  have h2 : (applyStageEvents [{ name := some "a", status := some "done" },
      { name := some "b", status := some "running" }]).progress = none := by decide
  have hd1 : doneCount (applyStageEvents
      [{ name := some "a", status := some "done" }]).stages = 1 := by decide
  have hl1 : (applyStageEvents
      [{ name := some "a", status := some "done" }]).stages.length = 1 := by decide
  have hd2 : doneCount (applyStageEvents [{ name := some "a", status := some "done" },
      { name := some "b", status := some "running" }]).stages = 1 := by decide
  have hl2 : (applyStageEvents [{ name := some "a", status := some "done" },
      { name := some "b", status := some "running" }]).stages.length = 2 := by decide
  have ho1 : overallPercent (applyStageEvents
      [{ name := some "a", status := some "done" }]) = 100 := by
    simp only [overallPercent, h1]
    rw [if_pos (by rw [hl1]; norm_num), hd1, hl1]
    norm_num [round_eq]
  have ho2 : overallPercent (applyStageEvents [{ name := some "a", status := some "done" },
      { name := some "b", status := some "running" }]) = 50 := by
    simp only [overallPercent, h2]
    rw [if_pos (by rw [hl2]; norm_num), hd2, hl2]
    norm_num [round_eq]
  refine ⟨h1, h2, ho1, ho2, ?_⟩
  intro hle
  rw [ho1, ho2] at hle
  norm_num at hle

/-- C2 amended: the derived percentage is monotonically non-decreasing
across a stage event that carries no snapshot, names an existing stage
and does not regress it from done; an event appending a new non-done
stage can lower it. -/
theorem c2_percent_monotone_amended (s : PState) (d : AnalysisEventData) (n : String)
    (hprog : s.progress = none)
    (hname : d.name = some n) (hn : n ≠ "")
    (hmem : n ∈ s.stages.map Stage.name)
    (hsnap : d.percent = none)
    (hreg : ∀ st ∈ s.stages, st.name = n → st.status = "done" →
      (mkStage n d).status = "done") :
    overallPercent s ≤ overallPercent (progressOnUpdate .stage d s) := by
  have hs : (progressOnUpdate .stage d s).stages = upsertRec s.stages (mkStage n d) := by
    rw [stages_onUpdate_stage]
    simp only [hname]
    rw [if_neg hn]
  have hp : (progressOnUpdate .stage d s).progress = none := by
    rw [progress_onUpdate_stage_no_snapshot d s hsnap, hprog]
  have hmk : (mkStage n d).name = n := rfl
  have hmem' : (mkStage n d).name ∈ s.stages.map Stage.name := by
    rw [hmk]
    exact hmem
  have hlen : (upsertRec s.stages (mkStage n d)).length = s.stages.length :=
    upsertRec_length_of_mem _ _ hmem'
  have hlen0 : 0 < s.stages.length := by
    cases hq : s.stages with
    | nil => rw [hq] at hmem; simp at hmem
    | cons a l => simp
  have hdc : doneCount s.stages ≤ doneCount (upsertRec s.stages (mkStage n d)) :=
    doneCount_le_upsertRec s.stages (mkStage n d)
      (fun x hx hxn => hreg x hx (hmk ▸ hxn))
  simp only [overallPercent, hprog, hp, hs]
  rw [if_pos hlen0, if_pos (by rw [hlen]; exact hlen0), hlen]
  have hc : (0 : ℚ) < (s.stages.length : ℚ) := by exact_mod_cast hlen0
  have hcast : ((doneCount s.stages : ℚ)) ≤
      ((doneCount (upsertRec s.stages (mkStage n d)) : ℚ)) := by exact_mod_cast hdc
  have hab : (doneCount s.stages : ℚ) / (s.stages.length : ℚ) * 100 ≤
      (doneCount (upsertRec s.stages (mkStage n d)) : ℚ) / (s.stages.length : ℚ) * 100 := by
    gcongr
  exact_mod_cast roundRatMono hab

/-- C2 witness: a stage event completing the only running stage raises
the derived percentage, never lowers it. -/
theorem c2_percent_monotone_witness :
    overallPercent
      { stages := [{ name := "a", label := "a", status := "running", message := "", duration_ms := 0 }]
        summary := none
        progress := none
        isPausing := false
        timerRunning := true
        pausedCalls := 0
        streamError := none } ≤
    overallPercent (progressOnUpdate .stage
      { name := some "a", status := some "done", duration_ms := some 1200 }
      { stages := [{ name := "a", label := "a", status := "running", message := "", duration_ms := 0 }]
        summary := none
        progress := none
        isPausing := false
        timerRunning := true
        pausedCalls := 0
        streamError := none }) :=
  c2_percent_monotone_amended
    { stages := [{ name := "a", label := "a", status := "running", message := "", duration_ms := 0 }]
      summary := none
      progress := none
      isPausing := false
      timerRunning := true
      pausedCalls := 0
      streamError := none }
    { name := some "a", status := some "done", duration_ms := some 1200 } "a"
    rfl rfl (by decide) (by decide) rfl (by decide)

/-- C7 witness: an error event right after the first sendMessage turns
the placeholder into the error record, leaving the length, the user
turn and the conversation id unchanged. -/
theorem c7_error_witness :
    (chatOnError "boom" (sendMessage "hi" initialChatState)).messages.length =
      (sendMessage "hi" initialChatState).messages.length ∧
    (chatOnError "boom" (sendMessage "hi" initialChatState)).conversationId =
      (sendMessage "hi" initialChatState).conversationId :=
  ⟨(c7_error_placeholder (sendMessage "hi" initialChatState) "boom" (by decide) (by decide)).1,
   (c7_error_placeholder (sendMessage "hi" initialChatState) "boom"
      (by decide) (by decide)).2.2.2⟩

end Artifactor
